import Mathlib

/-!
# Allocation benchmark (`main.cpp`, `src/StandartBenchmark.cpp`)

A shallow embedding of the benchmark harness: the process-wide random source,
the wall clock and the heap are one explicit `World` that every operation
threads through.

* `int` arithmetic that could leave the 32-bit range is wrapped with
  `wrapInt32`; the C++ operators `%` and `/` are `Int.tmod` and `Int.tdiv`
  (truncation toward zero).
* `time_t` and `long` values (clock fields and their differences) are kept in
  `Int`: they are 64 bits wide, differences of clock readings stay far inside
  that range, and leaving it would be undefined behaviour, not wrap-around.
* Reading the uninitialised accumulator of `main` yields an arbitrary value,
  a parameter of `Driver.main`.
* Operations with undefined behaviour (`%` by zero, an index outside the pool)
  return `none`.
* `new char[size]` throws for a negative size, which no caller catches
  (`none`); otherwise `new` succeeds: running out of memory is not modelled,
  the source has no path for it.
-/

/-! ## Machine integers -/

/-- Range of the C++ type `int` (32 bits, two's complement). -/
def inInt32 (x : Int) : Prop := -2147483648 ≤ x ∧ x ≤ 2147483647

instance (x : Int) : Decidable (inInt32 x) := by
  unfold inInt32
  exact inferInstance

/-- Value stored in an `int` when the mathematical result is `x`. -/
def wrapInt32 (x : Int) : Int := (x + 2147483648) % 4294967296 - 2147483648

/-! ## The world: random source, clock, heap -/

/-- POSIX `timespec`. -/
structure timespec where
  tv_sec : Int
  tv_nsec : Int
deriving DecidableEq, Repr

/-- One heap operation. A block is named by the number of array acquisitions
that preceded its own. -/
inductive HeapEvent where
  /-- `new RealBuffer()` or `new FakeBuffer()`: a pool slot object. -/
  | object : HeapEvent
  /-- `new char[size]`. -/
  | acquire (block : Nat) (size : Int) : HeapEvent
  /-- `delete[] buffer_` on a non-null pointer. -/
  | release (block : Nat) : HeapEvent
deriving DecidableEq, Repr

/-- Is the event a `new char[size]`. -/
def HeapEvent.isAcquire : HeapEvent → Bool
  | HeapEvent.acquire _ _ => true
  | _ => false

/-- Is the event a `delete[]` of a block. -/
def HeapEvent.isRelease : HeapEvent → Bool
  | HeapEvent.release _ => true
  | _ => false

/-- The heap, as the log of the operations performed on it (newest first). -/
structure Heap where
  events : List HeapEvent
deriving DecidableEq, Repr

/-- Number of storage acquisitions (`new char[size]`) so far. -/
def Heap.acquisitions (h : Heap) : Nat := h.events.countP HeapEvent.isAcquire

/-- Number of storage releases (`delete[]`) so far. -/
def Heap.releases (h : Heap) : Nat := h.events.countP HeapEvent.isRelease

/-- State outside the program's own variables: the values later calls of
`rand()` return, the readings later calls of `clock_gettime` return, and the
heap. -/
structure World where
  randSeq : Nat → Int
  clockSeq : Nat → timespec
  heap : Heap

/-- Library `rand()`: the next value of the random source. -/
def rand (w : World) : Int × World :=
  (w.randSeq 0, { w with randSeq := fun n => w.randSeq (n + 1) })

/-- Library `clock_gettime(CLOCK_REALTIME, _)`: the next clock reading. -/
def clock_gettime (w : World) : timespec × World :=
  (w.clockSeq 0, { w with clockSeq := fun n => w.clockSeq (n + 1) })

/-- Expression `new char[size]`: throws for a negative size, else yields a
fresh block, logged. -/
def newCharArray (size : Int) (w : World) : Option (Nat × World) :=
  if size < 0 then none
  else
    some (w.heap.acquisitions,
      { w with
        heap := { events := HeapEvent.acquire w.heap.acquisitions size :: w.heap.events } })

/-- Expression `delete[] p`: nothing for a null pointer, else the block is
released. -/
def deleteCharArray (p : Option Nat) (w : World) : World :=
  match p with
  | none => w
  | some b => { w with heap := { events := HeapEvent.release b :: w.heap.events } }

/-- The world after `k` more calls of `rand()`. -/
def World.skip (k : Nat) (w : World) : World :=
  { w with randSeq := fun n => w.randSeq (n + k) }

/-- Every value of the random source lies in `[0, RAND_MAX]`, as the C library
promises for `rand()`. -/
def RandInRange (RAND_MAX : Int) (w : World) : Prop :=
  ∀ n, 0 ≤ w.randSeq n ∧ w.randSeq n ≤ RAND_MAX

/-- Choices the language leaves to the compiler: which operand of a `+` is
evaluated first, and whether the object expression of a call is evaluated
before its argument. -/
structure EvalOrder where
  /-- In `generator.size() + generator.size() * 1024`, left operand first. -/
  kbLeftFirst : Bool
  /-- In `1024 * 1024 * bgenerator.size() + kgenerator.size()`, left first. -/
  mbLeftFirst : Bool
  /-- In `buffers[rand() % n]->Realloc(generator_->size())`, index first. -/
  indexFirst : Bool
deriving DecidableEq, Repr

/-! ## Size generators -/

/-- Method `ByteGenerator::size`: `rand() % 1024`. -/
def ByteGenerator.size (w : World) : Int × World :=
  (Int.tmod (rand w).1 1024, (rand w).2)

/-- Method `KbGenerator::size`: `generator.size() + generator.size() * 1024`. -/
def KbGenerator.size (o : EvalOrder) (w : World) : Int × World :=
  if o.kbLeftFirst then
    let l := ByteGenerator.size w
    let r := ByteGenerator.size l.2
    (wrapInt32 (l.1 + wrapInt32 (r.1 * 1024)), r.2)
  else
    let r := ByteGenerator.size w
    let l := ByteGenerator.size r.2
    (wrapInt32 (l.1 + wrapInt32 (r.1 * 1024)), l.2)

/-- Method `MbGenerator::size`:
`1024 * 1024 * bgenerator.size() + kgenerator.size()`. -/
def MbGenerator.size (o : EvalOrder) (w : World) : Int × World :=
  if o.mbLeftFirst then
    let b := ByteGenerator.size w
    let k := KbGenerator.size o b.2
    (wrapInt32 (wrapInt32 (wrapInt32 (1024 * 1024) * b.1) + k.1), k.2)
  else
    let k := KbGenerator.size o w
    let b := ByteGenerator.size k.2
    (wrapInt32 (wrapInt32 (wrapInt32 (1024 * 1024) * b.1) + k.1), b.2)

/-- Method `EqualGenerator::size`. -/
def EqualGenerator.size (o : EvalOrder) (w : World) : Int × World :=
  let x := Int.tmod (rand w).1 3
  if x = 0 then ByteGenerator.size (rand w).2
  else if x = 1 then KbGenerator.size o (rand w).2
  else MbGenerator.size o (rand w).2

/-- The concrete subclasses of `SizeGenerator`. -/
inductive SizeGenerator where
  | byte : SizeGenerator
  | kb : SizeGenerator
  | mb : SizeGenerator
  | equal : SizeGenerator
deriving DecidableEq, Repr

/-- Virtual call `generator->size()`. -/
def SizeGenerator.size (g : SizeGenerator) (o : EvalOrder) (w : World) : Int × World :=
  match g with
  | SizeGenerator.byte => ByteGenerator.size w
  | SizeGenerator.kb => KbGenerator.size o w
  | SizeGenerator.mb => MbGenerator.size o w
  | SizeGenerator.equal => EqualGenerator.size o w

/-- Virtual call `generator->Info()`: the base class line followed by the
subclass line. -/
def SizeGenerator.Info (g : SizeGenerator) : String :=
  "Information about generator of buffer sizes:\n" ++
  match g with
  | SizeGenerator.byte => "Uniform generation in [0-1Kb)\n"
  | SizeGenerator.kb => "Uniform generation in [0-1Mb)\n"
  | SizeGenerator.mb => "Uniform generation in [0-1Gb)\n"
  | SizeGenerator.equal => "Equal probabilyty of three sizes: few bytes, few Kb or few Mb\n"

/-- The subclass whose `size()` the body of `EqualGenerator::size` calls when
its selector draw is `r`. -/
def EqualGenerator.chosen (r : Int) : SizeGenerator :=
  let x := Int.tmod r 3
  if x = 0 then SizeGenerator.byte
  else if x = 1 then SizeGenerator.kb
  else SizeGenerator.mb

/-- Number of values `r` in `[0, RAND_MAX]` for which `EqualGenerator::size`
delegates to `g`. -/
def EqualGenerator.selectionCount (RAND_MAX : Nat) (g : SizeGenerator) : Nat :=
  ((List.range (RAND_MAX + 1)).filter
    (fun r : Nat => decide (EqualGenerator.chosen (Int.ofNat r) = g))).length

/-- Probability that `EqualGenerator::size` delegates to `g` when the selector
draw is uniform over `[0, RAND_MAX]`. -/
def EqualGenerator.selectionProbability (RAND_MAX : Nat) (g : SizeGenerator) : ℚ :=
  (EqualGenerator.selectionCount RAND_MAX g : ℚ) / ((RAND_MAX : ℚ) + 1)

/-! ## Timer -/

/-- Class `Timer`: the two timestamps. -/
structure Timer where
  begin : timespec
  end_ : timespec
deriving DecidableEq, Repr

/-- Method `Timer::Start`. -/
def Timer.Start (t : Timer) (w : World) : Timer × World :=
  ({ t with begin := (clock_gettime w).1 }, (clock_gettime w).2)

/-- Method `Timer::Finish`. -/
def Timer.Finish (t : Timer) (w : World) : Timer × World :=
  ({ t with end_ := (clock_gettime w).1 }, (clock_gettime w).2)

/-- Method `Timer::Seconds`. -/
def Timer.Seconds (t : Timer) : Int := t.end_.tv_sec - t.begin.tv_sec

/-- Method `Timer::NSeconds`. -/
def Timer.NSeconds (t : Timer) : Int := t.end_.tv_nsec - t.begin.tv_nsec

/-- A timestamp as the clock delivers it: the sub-second field in
`[0, 10^9)`. -/
def timespec.valid (t : timespec) : Prop := 0 ≤ t.tv_nsec ∧ t.tv_nsec < 1000000000

/-- Nanoseconds from the epoch to the timestamp. -/
def timespec.toNanoseconds (t : timespec) : Int := t.tv_sec * 1000000000 + t.tv_nsec

/-! ## Buffers -/

/-- Class `RealBuffer`: `buffer_` is `none` for a null pointer, else the block
it points to. -/
structure RealBuffer where
  buffer_ : Option Nat
  allocated_ : Bool
deriving DecidableEq, Repr

/-- Class `FakeBuffer`. -/
structure FakeBuffer where
  buffer_ : Option Nat
  allocated_ : Bool
deriving DecidableEq, Repr

/-- Method `RealBuffer::Realloc`. When `new char[size]` throws, neither
member has been written and the exception leaves the method. -/
def RealBuffer.Realloc (b : RealBuffer) (size : Int) (w : World) :
    Option (RealBuffer × World) :=
  if b.allocated_ then
    some ({ b with allocated_ := !b.allocated_ }, deleteCharArray b.buffer_ w)
  else
    match newCharArray size w with
    | none => none
    | some a => some ({ buffer_ := some a.1, allocated_ := !b.allocated_ }, a.2)

/-- Destructor `RealBuffer::~RealBuffer`. -/
def RealBuffer.destructor (b : RealBuffer) (w : World) : World :=
  if b.allocated_ then deleteCharArray b.buffer_ w else w

/-- Method `FakeBuffer::Realloc`: both branches only mention `buffer_`. -/
def FakeBuffer.Realloc (b : FakeBuffer) (_size : Int) (w : World) : FakeBuffer × World :=
  ({ b with allocated_ := !b.allocated_ }, w)

/-- Object behind a `TestBuffer*`. -/
inductive TestBuffer where
  | real (b : RealBuffer) : TestBuffer
  | fake (b : FakeBuffer) : TestBuffer
deriving DecidableEq, Repr

/-- Virtual call `ptr->Realloc(size)`. -/
def TestBuffer.Realloc (t : TestBuffer) (size : Int) (w : World) :
    Option (TestBuffer × World) :=
  match t with
  | TestBuffer.real b =>
    match b.Realloc size w with
    | none => none
    | some r => some (TestBuffer.real r.1, r.2)
  | TestBuffer.fake b => some (TestBuffer.fake (b.Realloc size w).1, (b.Realloc size w).2)

/-- Flag `allocated_` of the object. -/
def TestBuffer.allocated_ : TestBuffer → Bool
  | TestBuffer.real b => b.allocated_
  | TestBuffer.fake b => b.allocated_

/-- Is the object a `FakeBuffer`. -/
def TestBuffer.isFake : TestBuffer → Bool
  | TestBuffer.real _ => false
  | TestBuffer.fake _ => true

/-- Expressions `new RealBuffer()` and `new FakeBuffer()`: value-initialisation
zeroes both members (null pointer, `false`). -/
def TestBuffer.fresh (real : Bool) : TestBuffer :=
  if real then TestBuffer.real ⟨none, false⟩ else TestBuffer.fake ⟨none, false⟩

/-- A sequence of `Realloc` calls on one `RealBuffer`, one per size; it ends
at the first call that throws. -/
def RealBuffer.Reallocs : List Int → RealBuffer → World → Option (RealBuffer × World)
  | [], b, w => some (b, w)
  | size :: rest, b, w =>
    match b.Realloc size w with
    | none => none
    | some r => RealBuffer.Reallocs rest r.1 r.2

/-- A sequence of `Realloc` calls on one `FakeBuffer`, one per size. -/
def FakeBuffer.Reallocs : List Int → FakeBuffer → World → FakeBuffer × World
  | [], b, w => (b, w)
  | size :: rest, b, w => FakeBuffer.Reallocs rest (b.Realloc size w).1 (b.Realloc size w).2

/-! ## The benchmark -/

/-- Struct `Report`. -/
structure Report where
  alloc_count : Int
  seconds : Int
  nseconds : Int
  info : String
deriving DecidableEq, Repr

/-- Class `StandartBenchmark` (its member `info_` is never read). -/
structure StandartBenchmark where
  num_of_buffers_ : Int
  num_of_allocations_ : Int
  generator_ : SizeGenerator
deriving DecidableEq, Repr

/-- Method `StandartBenchmark::Info`. -/
def StandartBenchmark.Info : String :=
  "Benchmark info:\n" ++ "Standart benchmark with random buffer allocate/deallocate.\n"

/-- The pool of `Run`: `n` fresh slot objects, each from its own `new`. -/
def StandartBenchmark.newPool (real : Bool) (n : Nat) (w : World) : List TestBuffer × World :=
  (List.replicate n (TestBuffer.fresh real),
   { w with heap := { events := List.replicate n HeapEvent.object ++ w.heap.events } })

/-- The two draws of one loop iteration, in the order the compiler chose: the
value of `rand()` for the index, the size, and the world after both. -/
def StandartBenchmark.draws (o : EvalOrder) (s : StandartBenchmark) (w : World) :
    Int × Int × World :=
  if o.indexFirst then
    ((rand w).1, (s.generator_.size o (rand w).2).1, (s.generator_.size o (rand w).2).2)
  else
    ((rand (s.generator_.size o w).2).1, (s.generator_.size o w).1,
     (rand (s.generator_.size o w).2).2)

/-- One iteration of the loop of `Run`:
`buffers[rand() % num_of_buffers_]->Realloc(generator_->size())`. -/
def StandartBenchmark.iteration (o : EvalOrder) (s : StandartBenchmark)
    (buffers : List TestBuffer) (w : World) : Option (List TestBuffer × World) :=
  let d := StandartBenchmark.draws o s w
  if s.num_of_buffers_ = 0 then none
  else
    let i := Int.tmod d.1 s.num_of_buffers_
    if i < 0 then none
    else
      match buffers[i.toNat]? with
      | none => none
      | some b =>
        match b.Realloc d.2.1 d.2.2 with
        | none => none
        | some r => some (buffers.set i.toNat r.1, r.2)

/-- The loop of `Run`, for the given number of iterations. -/
def StandartBenchmark.loop (o : EvalOrder) (s : StandartBenchmark) :
    Nat → List TestBuffer → World → Option (List TestBuffer × World)
  | 0, buffers, w => some (buffers, w)
  | n + 1, buffers, w =>
    match StandartBenchmark.iteration o s buffers w with
    | none => none
    | some r => StandartBenchmark.loop o s n r.1 r.2

/-- Method `StandartBenchmark::Run`. The vector holds raw pointers: when it
goes out of scope no slot object is deleted, so no destructor runs. The
timer's fields are written before they are read. -/
def StandartBenchmark.Run (o : EvalOrder) (s : StandartBenchmark) (real : Bool) (w : World) :
    Option (Report × World) :=
  if s.num_of_buffers_ < 0 then none
  else
    let pool := StandartBenchmark.newPool real s.num_of_buffers_.toNat w
    let started := Timer.Start ⟨⟨0, 0⟩, ⟨0, 0⟩⟩ pool.2
    match StandartBenchmark.loop o s s.num_of_allocations_.toNat pool.1 started.2 with
    | none => none
    | some r =>
      let finished := started.1.Finish r.2
      some ({ alloc_count := s.num_of_allocations_
              seconds := finished.1.Seconds
              nseconds := finished.1.NSeconds
              info := "" }, finished.2)

/-- Method `StandartBenchmark::Result`. -/
def StandartBenchmark.Result (o : EvalOrder) (s : StandartBenchmark) (w : World) :
    Option (Report × World) :=
  match StandartBenchmark.Run o s true w with
  | none => none
  | some real_report =>
    match StandartBenchmark.Run o s false real_report.2 with
    | none => none
    | some fake_report =>
      some ({ alloc_count := real_report.1.alloc_count
              seconds := real_report.1.seconds - fake_report.1.seconds
              nseconds := real_report.1.nseconds - fake_report.1.nseconds
              info := s.generator_.Info ++ StandartBenchmark.Info }, fake_report.2)

/-! ## The driver -/

/-- Statement `total_nsek_per_alloc += (report.nseconds / report.alloc_count)`:
a `long` quotient added to an `int` and stored back into the `int`. -/
def Driver.accumulate (total : Int) (report : Report) : Option Int :=
  if report.alloc_count = 0 then none
  else some (wrapInt32 (total + Int.tdiv report.nseconds report.alloc_count))

/-- The loop of `main`, for the given number of iterations: the accumulator,
the reports handed to `StdioReporter` in order, and the world. -/
def Driver.loop (o : EvalOrder) : Nat → Int → World → Option (Int × List Report × World)
  | 0, total, w => some (total, [], w)
  | n + 1, total, w =>
    match StandartBenchmark.Result o ⟨1000, 100000, SizeGenerator.equal⟩ w with
    | none => none
    | some r =>
      match Driver.accumulate total r.1 with
      | none => none
      | some total1 =>
        match Driver.loop o n total1 r.2 with
        | none => none
        | some rest => some (rest.1, r.1 :: rest.2.1, rest.2.2)

/-- Function `main`. The accumulator `total_nsek_per_alloc` is declared without
an initialiser; `garbage` is the value its storage happens to hold. Returns
the reports printed and the integer printed on the last line. -/
def Driver.main (o : EvalOrder) (garbage : Int) (w : World) : Option (List Report × Int × World) :=
  match Driver.loop o 10 garbage w with
  | none => none
  | some r => some (r.2.1, Int.tdiv r.1 10, r.2.2)

/-- The last line as the specification defines it: the ten quotients
`nseconds / alloc_count` summed from zero, the sum divided by ten. -/
def Driver.specFinalLine (reports : List Report) : Int :=
  Int.tdiv ((reports.map (fun r => Int.tdiv r.nseconds r.alloc_count)).sum) 10

/-- The heap log the specification prescribes for a run of `Realloc` calls on
a buffer that starts free, oldest event first: every odd-numbered call acquires
a block of the requested size, every even-numbered call releases the block the
call before it acquired. `next` names the first block. -/
def RealBuffer.specTrace (next : Nat) : List Int → List HeapEvent
  | [] => []
  | [size] => [HeapEvent.acquire next size]
  | size :: _ :: rest =>
    HeapEvent.acquire next size :: HeapEvent.release next :: RealBuffer.specTrace (next + 1) rest

/-- Every slot of the pool is a `FakeBuffer`. -/
def AllFake (buffers : List TestBuffer) : Prop := ∀ b ∈ buffers, b.isFake = true

/-! ## Concrete inputs -/

/-- One choice of evaluation orders. -/
def sampleOrder : EvalOrder := ⟨true, false, true⟩

/-- A world with an empty heap log, random values in `[0, 32767]` and a clock
that advances. -/
def sampleWorld : World :=
  { randSeq := fun n => Int.ofNat ((5000 + 7 * n) % 32768)
    clockSeq := fun n => ⟨1700000000 + Int.ofNat n, Int.ofNat ((999999700 + 700 * n) % 1000000000)⟩
    heap := ⟨[]⟩ }

/-- A world whose clock readings all fall on a whole second. -/
def wholeSecondWorld : World :=
  { randSeq := fun n => Int.ofNat ((5000 + 7 * n) % 32768)
    clockSeq := fun n => ⟨1700000000 + Int.ofNat n, 0⟩
    heap := ⟨[]⟩ }

/-! ## Lemmas: machine integers and the random source -/

theorem wrapInt32_of_inInt32 {x : Int} (h : inInt32 x) : wrapInt32 x = x := by
  unfold inInt32 at h
  unfold wrapInt32
  omega

theorem tmod_1024_bounds {r : Int} (h : 0 ≤ r) :
    Int.tmod r 1024 = r % 1024 ∧ 0 ≤ Int.tmod r 1024 ∧ Int.tmod r 1024 < 1024 := by
  have e : Int.tmod r 1024 = r % 1024 := Int.tmod_eq_emod h (by norm_num)
  rw [e]
  omega

theorem World.skip_skip (a b : Nat) (w : World) : (w.skip a).skip b = w.skip (a + b) := by
  unfold World.skip
  simp only [World.mk.injEq, and_true]
  funext n
  rw [Nat.add_assoc, Nat.add_comm b a]

theorem World.skip_zero (w : World) : w.skip 0 = w := rfl

theorem World.skip_heap (k : Nat) (w : World) : (w.skip k).heap = w.heap := rfl

theorem World.skip_clockSeq (k : Nat) (w : World) : (w.skip k).clockSeq = w.clockSeq := rfl

theorem World.skip_randSeq (k n : Nat) (w : World) :
    (w.skip k).randSeq n = w.randSeq (n + k) := rfl

theorem RandInRange.skip {M : Int} {w : World} (h : RandInRange M w) (k : Nat) :
    RandInRange M (w.skip k) := fun n => h (n + k)

theorem rand_eq (w : World) : rand w = (w.randSeq 0, w.skip 1) := rfl

theorem ByteGenerator.size_eq (w : World) :
    ByteGenerator.size w = (Int.tmod (w.randSeq 0) 1024, w.skip 1) := rfl

theorem ByteGenerator.byte_size_bounds {M : Int} {w : World} (h : RandInRange M w) :
    0 ≤ (ByteGenerator.size w).1 ∧ (ByteGenerator.size w).1 < 1024 := by
  rw [ByteGenerator.size_eq]
  exact (tmod_1024_bounds (h 0).1).2

theorem KbGenerator.kb_size_snd (o : EvalOrder) (w : World) :
    (KbGenerator.size o w).2 = w.skip 2 := by
  unfold KbGenerator.size
  split <;> simp [ByteGenerator.size_eq, World.skip_skip]

/-- The arithmetic of `KbGenerator::size` on two byte-range operands: nothing
wraps. -/
theorem kb_arith {l r : Int} (hl : 0 ≤ l ∧ l < 1024) (hr : 0 ≤ r ∧ r < 1024) :
    wrapInt32 (l + wrapInt32 (r * 1024)) = l + r * 1024 ∧
    inInt32 (r * 1024) ∧ inInt32 (l + r * 1024) := by
  have h1 : inInt32 (r * 1024) := by unfold inInt32; omega
  have h2 : inInt32 (l + r * 1024) := by unfold inInt32; omega
  rw [wrapInt32_of_inInt32 h1, wrapInt32_of_inInt32 h2]
  exact ⟨rfl, h1, h2⟩

/-- The arithmetic of `MbGenerator::size` on a byte-range and a
kilobyte-range operand: nothing wraps. -/
theorem mb_arith {b k : Int} (hb : 0 ≤ b ∧ b < 1024) (hk : 0 ≤ k ∧ k < 1048576) :
    wrapInt32 (wrapInt32 (wrapInt32 (1024 * 1024) * b) + k) = 1048576 * b + k ∧
    inInt32 (1024 * 1024) ∧ inInt32 (1024 * 1024 * b) ∧ inInt32 (1024 * 1024 * b + k) := by
  have h0 : inInt32 (1024 * 1024) := by unfold inInt32; omega
  have h1 : inInt32 (1024 * 1024 * b) := by unfold inInt32; omega
  have h2 : inInt32 (1024 * 1024 * b + k) := by unfold inInt32; omega
  rw [wrapInt32_of_inInt32 h0, wrapInt32_of_inInt32 h1, wrapInt32_of_inInt32 h2]
  refine ⟨by omega, h0, h1, h2⟩

theorem KbGenerator.kb_size_fst {M : Int} (o : EvalOrder) {w : World} (h : RandInRange M w) :
    (KbGenerator.size o w).1 =
      (ByteGenerator.size (w.skip (if o.kbLeftFirst then 0 else 1))).1 +
      (ByteGenerator.size (w.skip (if o.kbLeftFirst then 1 else 0))).1 * 1024 := by
  have b0 := ByteGenerator.byte_size_bounds h
  have b1 := ByteGenerator.byte_size_bounds (h.skip 1)
  unfold KbGenerator.size
  cases o.kbLeftFirst
  · simp only [Bool.false_eq_true, if_false, World.skip_zero]
    rw [show (ByteGenerator.size w).2 = w.skip 1 from rfl]
    exact (kb_arith b1 b0).1
  · simp only [if_true, World.skip_zero]
    rw [show (ByteGenerator.size w).2 = w.skip 1 from rfl]
    exact (kb_arith b0 b1).1

theorem KbGenerator.kb_size_bounds {M : Int} (o : EvalOrder) {w : World} (h : RandInRange M w) :
    0 ≤ (KbGenerator.size o w).1 ∧ (KbGenerator.size o w).1 < 1048576 := by
  rw [KbGenerator.kb_size_fst o h]
  have b0 := ByteGenerator.byte_size_bounds (h.skip (if o.kbLeftFirst then 0 else 1))
  have b1 := ByteGenerator.byte_size_bounds (h.skip (if o.kbLeftFirst then 1 else 0))
  omega

theorem MbGenerator.mb_size_snd (o : EvalOrder) (w : World) :
    (MbGenerator.size o w).2 = w.skip 3 := by
  unfold MbGenerator.size
  split <;> simp [ByteGenerator.size_eq, KbGenerator.kb_size_snd, World.skip_skip]

theorem MbGenerator.mb_size_fst {M : Int} (o : EvalOrder) {w : World} (h : RandInRange M w) :
    (MbGenerator.size o w).1 =
      1048576 * (ByteGenerator.size (w.skip (if o.mbLeftFirst then 0 else 2))).1 +
      (KbGenerator.size o (w.skip (if o.mbLeftFirst then 1 else 0))).1 := by
  unfold MbGenerator.size
  cases o.mbLeftFirst
  · simp only [Bool.false_eq_true, if_false, World.skip_zero]
    rw [KbGenerator.kb_size_snd]
    exact (mb_arith (ByteGenerator.byte_size_bounds (h.skip 2)) (KbGenerator.kb_size_bounds o h)).1
  · simp only [if_true, World.skip_zero]
    rw [show (ByteGenerator.size w).2 = w.skip 1 from rfl]
    exact (mb_arith (ByteGenerator.byte_size_bounds h) (KbGenerator.kb_size_bounds o (h.skip 1))).1

theorem MbGenerator.mb_size_bounds {M : Int} (o : EvalOrder) {w : World} (h : RandInRange M w) :
    0 ≤ (MbGenerator.size o w).1 ∧ (MbGenerator.size o w).1 < 1073741824 := by
  rw [MbGenerator.mb_size_fst o h]
  have b := ByteGenerator.byte_size_bounds (h.skip (if o.mbLeftFirst then 0 else 2))
  have k := KbGenerator.kb_size_bounds o (h.skip (if o.mbLeftFirst then 1 else 0))
  omega

theorem EqualGenerator.size_eq_chosen (o : EvalOrder) (w : World) :
    EqualGenerator.size o w = (EqualGenerator.chosen (w.randSeq 0)).size o (w.skip 1) ∧
    EqualGenerator.chosen (w.randSeq 0) ≠ SizeGenerator.equal := by
  unfold EqualGenerator.size EqualGenerator.chosen
  simp only [rand_eq]
  by_cases h0 : Int.tmod (w.randSeq 0) 3 = 0
  · simp [h0, SizeGenerator.size]
  · by_cases h1 : Int.tmod (w.randSeq 0) 3 = 1
    · simp [h1, SizeGenerator.size]
    · simp [h0, h1, SizeGenerator.size]

theorem SizeGenerator.gen_size_snd (g : SizeGenerator) (o : EvalOrder) (w : World) :
    ∃ k, (g.size o w).2 = w.skip k := by
  cases g with
  | byte => exact ⟨1, rfl⟩
  | kb => exact ⟨2, KbGenerator.kb_size_snd o w⟩
  | mb => exact ⟨3, MbGenerator.mb_size_snd o w⟩
  | equal =>
    obtain ⟨h, ne⟩ := EqualGenerator.size_eq_chosen o w
    simp only [SizeGenerator.size]
    rw [h]
    generalize EqualGenerator.chosen (w.randSeq 0) = c at ne
    cases c with
    | byte => exact ⟨2, by simp [SizeGenerator.size, ByteGenerator.size_eq, World.skip_skip]⟩
    | kb => exact ⟨3, by simp [SizeGenerator.size, KbGenerator.kb_size_snd, World.skip_skip]⟩
    | mb => exact ⟨4, by simp [SizeGenerator.size, MbGenerator.mb_size_snd, World.skip_skip]⟩
    | equal => exact absurd rfl ne

theorem SizeGenerator.gen_size_nonneg {M : Int} (g : SizeGenerator) (o : EvalOrder)
    {w : World} (h : RandInRange M w) : 0 ≤ (g.size o w).1 := by
  cases g with
  | byte => exact (ByteGenerator.byte_size_bounds h).1
  | kb => exact (KbGenerator.kb_size_bounds o h).1
  | mb => exact (MbGenerator.mb_size_bounds o h).1
  | equal =>
    obtain ⟨e, ne⟩ := EqualGenerator.size_eq_chosen o w
    simp only [SizeGenerator.size]
    rw [e]
    generalize EqualGenerator.chosen (w.randSeq 0) = c at ne
    cases c with
    | byte => exact (ByteGenerator.byte_size_bounds (h.skip 1)).1
    | kb => exact (KbGenerator.kb_size_bounds o (h.skip 1)).1
    | mb => exact (MbGenerator.mb_size_bounds o (h.skip 1)).1
    | equal => exact absurd rfl ne

/-! ## Lemmas: buffers -/

theorem RealBuffer.specTrace_counts (next : Nat) (sizes : List Int) :
    (RealBuffer.specTrace next sizes).countP HeapEvent.isAcquire = (sizes.length + 1) / 2 ∧
    (RealBuffer.specTrace next sizes).countP HeapEvent.isRelease = sizes.length / 2 := by
  induction next, sizes using RealBuffer.specTrace.induct with
  | case1 next => simp [RealBuffer.specTrace]
  | case2 next size => simp [RealBuffer.specTrace, HeapEvent.isAcquire, HeapEvent.isRelease]
  | case3 next size size2 rest ih =>
    simp only [RealBuffer.specTrace, List.countP_cons, HeapEvent.isAcquire, HeapEvent.isRelease,
      List.length_cons, ih.1, ih.2]
    constructor <;> simp <;> omega

/-- Induction on a list two elements at a time. -/
theorem list_pair_induction {α : Type} {P : List α → Prop} (h0 : P [])
    (h1 : ∀ a, P [a]) (h2 : ∀ a b l, P l → P (a :: b :: l)) : ∀ l, P l
  | [] => h0
  | [a] => h1 a
  | a :: b :: l => h2 a b l (list_pair_induction h0 h1 h2 l)

/-- From a free buffer, when no call that acquires is handed a negative size,
the calls all return, leave exactly the prescribed log, and the buffer ends
allocated exactly when their number is odd. -/
theorem RealBuffer.Reallocs_free (sizes : List Int) :
    ∀ (b : RealBuffer) (w : World), b.allocated_ = false →
      (∀ i size, sizes[2 * i]? = some size → 0 ≤ size) →
      ∃ r, RealBuffer.Reallocs sizes b w = some r ∧
        r.2.heap.events =
          (RealBuffer.specTrace w.heap.acquisitions sizes).reverse ++ w.heap.events ∧
        (r.1.allocated_ = true ↔ sizes.length % 2 = 1) := by
  induction sizes using list_pair_induction with
  | h0 =>
    intro b w hb _
    exact ⟨(b, w), rfl, by simp [RealBuffer.specTrace], by simp [hb]⟩
  | h1 size =>
    intro b w hb hs
    have h0 : ¬ size < 0 := not_lt.mpr (hs 0 size rfl)
    refine ⟨(⟨some w.heap.acquisitions, true⟩,
      { w with heap := { events := HeapEvent.acquire w.heap.acquisitions size ::
          w.heap.events } }), ?_, ?_, ?_⟩
    · simp [RealBuffer.Reallocs, RealBuffer.Realloc, hb, newCharArray, h0]
    · simp [RealBuffer.specTrace]
    · simp
  | h2 size size2 rest ih =>
    intro b w hb hs
    have h0 : ¬ size < 0 := not_lt.mpr (hs 0 size rfl)
    have step : RealBuffer.Reallocs (size :: size2 :: rest) b w =
        RealBuffer.Reallocs rest ⟨some w.heap.acquisitions, false⟩
          { w with heap := { events := HeapEvent.release w.heap.acquisitions ::
              HeapEvent.acquire w.heap.acquisitions size :: w.heap.events } } := by
      simp [RealBuffer.Reallocs, RealBuffer.Realloc, hb, newCharArray, deleteCharArray, h0]
    have hrest : ∀ i sz, rest[2 * i]? = some sz → 0 ≤ sz := by
      intro i sz hi
      apply hs (i + 1) sz
      rw [show 2 * (i + 1) = 2 * i + 1 + 1 from by ring]
      simpa using hi
    obtain ⟨r, e, h1, h2⟩ := ih ⟨some w.heap.acquisitions, false⟩
      { w with heap := { events := HeapEvent.release w.heap.acquisitions ::
          HeapEvent.acquire w.heap.acquisitions size :: w.heap.events } } rfl hrest
    refine ⟨r, by rw [step, e], ?_, ?_⟩
    · rw [h1]
      simp [RealBuffer.specTrace, Heap.acquisitions, HeapEvent.isAcquire]
    · rw [h2]
      simp only [List.length_cons]
      omega

theorem FakeBuffer.Reallocs_eq (sizes : List Int) :
    ∀ (b : FakeBuffer) (w : World),
      (FakeBuffer.Reallocs sizes b w).2 = w ∧
      (FakeBuffer.Reallocs sizes b w).1.buffer_ = b.buffer_ ∧
      ((FakeBuffer.Reallocs sizes b w).1.allocated_ =
        if sizes.length % 2 = 1 then !b.allocated_ else b.allocated_) := by
  induction sizes with
  | nil => intro b w; simp [FakeBuffer.Reallocs]
  | cons size rest ih =>
    intro b w
    obtain ⟨h1, h2, h3⟩ := ih (b.Realloc size w).1 (b.Realloc size w).2
    simp only [FakeBuffer.Reallocs, h1, h2, h3, List.length_cons]
    refine ⟨rfl, rfl, ?_⟩
    simp only [FakeBuffer.Realloc]
    rcases Nat.mod_two_eq_zero_or_one rest.length with h | h
    · have : (rest.length + 1) % 2 = 1 := by omega
      simp [h, this]
    · have : (rest.length + 1) % 2 = 0 := by omega
      simp [h, this]

/-- A `Realloc` with a non-negative size returns; it leaves the random
source and the clock alone, and on a `FakeBuffer` the whole world. -/
theorem TestBuffer.Realloc_ok (t : TestBuffer) (size : Int) (w : World) (h : 0 ≤ size) :
    ∃ r, t.Realloc size w = some r ∧ r.2.randSeq = w.randSeq ∧
      r.2.clockSeq = w.clockSeq ∧ (t.isFake = true → r.2 = w ∧ r.1.isFake = true) := by
  have h0 : ¬ size < 0 := not_lt.mpr h
  cases t with
  | real b =>
    cases hb : b.allocated_
    · refine ⟨(TestBuffer.real ⟨some w.heap.acquisitions, true⟩,
        { w with heap := { events := HeapEvent.acquire w.heap.acquisitions size ::
            w.heap.events } }), ?_, rfl, rfl, ?_⟩
      · simp [TestBuffer.Realloc, RealBuffer.Realloc, hb, newCharArray, h0]
      · intro hf
        simp [TestBuffer.isFake] at hf
    · refine ⟨(TestBuffer.real { b with allocated_ := false }, deleteCharArray b.buffer_ w),
        ?_, ?_, ?_, ?_⟩
      · simp [TestBuffer.Realloc, RealBuffer.Realloc, hb]
      · cases b.buffer_ <;> rfl
      · cases b.buffer_ <;> rfl
      · intro hf
        simp [TestBuffer.isFake] at hf
  | fake b => exact ⟨_, rfl, rfl, rfl, fun _ => ⟨rfl, rfl⟩⟩

/-! ## Lemmas: the benchmark loop -/

theorem StandartBenchmark.draws_spec {M : Int} (o : EvalOrder) (s : StandartBenchmark)
    {w : World} (h : RandInRange M w) :
    0 ≤ (StandartBenchmark.draws o s w).1 ∧ 0 ≤ (StandartBenchmark.draws o s w).2.1 ∧
    ∃ k, (StandartBenchmark.draws o s w).2.2 = w.skip k := by
  unfold StandartBenchmark.draws
  cases o.indexFirst
  · obtain ⟨k, hk⟩ := SizeGenerator.gen_size_snd s.generator_ o w
    have hz := SizeGenerator.gen_size_nonneg s.generator_ o h
    simp only [Bool.false_eq_true, if_false, hk, rand_eq, World.skip_skip]
    exact ⟨(h.skip k 0).1, hz, k + 1, rfl⟩
  · obtain ⟨k, hk⟩ := SizeGenerator.gen_size_snd s.generator_ o (w.skip 1)
    have hz := SizeGenerator.gen_size_nonneg s.generator_ o (h.skip 1)
    simp only [if_true, rand_eq, hk, World.skip_skip]
    exact ⟨(h 0).1, hz, 1 + k, rfl⟩

theorem StandartBenchmark.iteration_ok {M : Int} (o : EvalOrder) (s : StandartBenchmark)
    (buffers : List TestBuffer) (w : World) (hP : 1 ≤ s.num_of_buffers_)
    (hlen : buffers.length = s.num_of_buffers_.toNat) (h : RandInRange M w) :
    ∃ r, StandartBenchmark.iteration o s buffers w = some r ∧
      r.1.length = buffers.length ∧ RandInRange M r.2 ∧ r.2.clockSeq = w.clockSeq ∧
      (AllFake buffers → AllFake r.1 ∧ r.2.heap = w.heap) := by
  obtain ⟨hd, hz, k, hk⟩ := StandartBenchmark.draws_spec o s h
  have hne : s.num_of_buffers_ ≠ 0 := by omega
  have hi : 0 ≤ Int.tmod (StandartBenchmark.draws o s w).1 s.num_of_buffers_ ∧
      Int.tmod (StandartBenchmark.draws o s w).1 s.num_of_buffers_ < s.num_of_buffers_ := by
    rw [Int.tmod_eq_emod hd (by omega)]
    exact ⟨Int.emod_nonneg _ hne, Int.emod_lt_of_pos _ (by omega)⟩
  have hlt : (Int.tmod (StandartBenchmark.draws o s w).1 s.num_of_buffers_).toNat <
      buffers.length := by
    rw [hlen]
    omega
  obtain ⟨r, er, rr, rc, rf⟩ := TestBuffer.Realloc_ok
    (buffers[(Int.tmod (StandartBenchmark.draws o s w).1 s.num_of_buffers_).toNat])
    (StandartBenchmark.draws o s w).2.1 (StandartBenchmark.draws o s w).2.2 hz
  unfold StandartBenchmark.iteration
  simp only [if_neg hne, if_neg (not_lt.mpr hi.1), List.getElem?_eq_getElem hlt, er]
  refine ⟨_, rfl, ?_, ?_, ?_, ?_⟩
  · simp
  · intro n
    simp only [rr, hk]
    exact h.skip k n
  · simp only [rc, hk, World.skip_clockSeq]
  · intro hf
    have hb := hf _ (List.getElem_mem hlt)
    obtain ⟨e1, e2⟩ := rf hb
    constructor
    · intro b hbm
      rcases List.mem_or_eq_of_mem_set hbm with hm | he
      · exact hf b hm
      · rw [he]; exact e2
    · show r.2.heap = w.heap
      rw [e1, hk, World.skip_heap]

theorem StandartBenchmark.loop_ok {M : Int} (o : EvalOrder) (s : StandartBenchmark)
    (hP : 1 ≤ s.num_of_buffers_) (n : Nat) :
    ∀ (buffers : List TestBuffer) (w : World),
      buffers.length = s.num_of_buffers_.toNat → RandInRange M w →
      ∃ r, StandartBenchmark.loop o s n buffers w = some r ∧
        r.1.length = buffers.length ∧ RandInRange M r.2 ∧ r.2.clockSeq = w.clockSeq ∧
        (AllFake buffers → AllFake r.1 ∧ r.2.heap = w.heap) := by
  induction n with
  | zero =>
    intro buffers w _ h
    exact ⟨(buffers, w), rfl, rfl, h, rfl, fun hf => ⟨hf, rfl⟩⟩
  | succ n ih =>
    intro buffers w hlen h
    obtain ⟨r1, e1, l1, h1, c1, f1⟩ := StandartBenchmark.iteration_ok o s buffers w hP hlen h
    obtain ⟨r2, e2, l2, h2, c2, f2⟩ := ih r1.1 r1.2 (l1.trans hlen) h1
    refine ⟨r2, ?_, l2.trans l1, h2, c2.trans c1, ?_⟩
    · simp only [StandartBenchmark.loop, e1, e2]
    · intro hf
      obtain ⟨a1, b1⟩ := f1 hf
      obtain ⟨a2, b2⟩ := f2 a1
      exact ⟨a2, b2.trans b1⟩

/-- What `Run` returns when the pool is not empty: the report and the world
it leaves. -/
theorem StandartBenchmark.Run_ok {M : Int} (o : EvalOrder) (s : StandartBenchmark)
    (real : Bool) (w : World) (hP : 1 ≤ s.num_of_buffers_) (h : RandInRange M w) :
    ∃ r, StandartBenchmark.Run o s real w = some r ∧
      r.1 = { alloc_count := s.num_of_allocations_
              seconds := (w.clockSeq 1).tv_sec - (w.clockSeq 0).tv_sec
              nseconds := (w.clockSeq 1).tv_nsec - (w.clockSeq 0).tv_nsec
              info := "" } ∧
      RandInRange M r.2 ∧ r.2.clockSeq = (fun n => w.clockSeq (n + 2)) ∧
      (real = false →
        r.2.heap = (StandartBenchmark.newPool false s.num_of_buffers_.toNat w).2.heap) := by
  have hlen : (StandartBenchmark.newPool real s.num_of_buffers_.toNat w).1.length =
      s.num_of_buffers_.toNat := by
    simp [StandartBenchmark.newPool]
  have hr : RandInRange M
      (Timer.Start ⟨⟨0, 0⟩, ⟨0, 0⟩⟩ (StandartBenchmark.newPool real s.num_of_buffers_.toNat w).2).2 :=
    fun n => h n
  obtain ⟨r, e, _, h1, c1, f1⟩ := StandartBenchmark.loop_ok o s hP s.num_of_allocations_.toNat
    _ _ hlen hr
  unfold StandartBenchmark.Run
  simp only [if_neg (not_lt.mpr (le_trans (by norm_num : (0 : Int) ≤ 1) hP)), e]
  refine ⟨_, rfl, ?_, ?_, ?_, ?_⟩
  · simp only [Timer.Finish, Timer.Start, Timer.Seconds, Timer.NSeconds, clock_gettime, c1]
    rfl
  · exact fun n => h1 n
  · simp only [Timer.Finish, clock_gettime, c1]
    rfl
  · intro hreal
    subst hreal
    have hf : AllFake (StandartBenchmark.newPool false s.num_of_buffers_.toNat w).1 := by
      intro b hb
      simp only [StandartBenchmark.newPool, List.mem_replicate] at hb
      rw [hb.2]
      rfl
    simp only [Timer.Finish, clock_gettime, (f1 hf).2]
    rfl

/-- What `Result` returns when the pool is not empty. -/
theorem StandartBenchmark.Result_ok {M : Int} (o : EvalOrder) (s : StandartBenchmark)
    (w : World) (hP : 1 ≤ s.num_of_buffers_) (h : RandInRange M w) :
    ∃ real fake, StandartBenchmark.Run o s true w = some real ∧
      StandartBenchmark.Run o s false real.2 = some fake ∧
      real.1 = { alloc_count := s.num_of_allocations_
                 seconds := (w.clockSeq 1).tv_sec - (w.clockSeq 0).tv_sec
                 nseconds := (w.clockSeq 1).tv_nsec - (w.clockSeq 0).tv_nsec
                 info := "" } ∧
      fake.1 = { alloc_count := s.num_of_allocations_
                 seconds := (w.clockSeq 3).tv_sec - (w.clockSeq 2).tv_sec
                 nseconds := (w.clockSeq 3).tv_nsec - (w.clockSeq 2).tv_nsec
                 info := "" } ∧
      StandartBenchmark.Result o s w =
        some ({ alloc_count := s.num_of_allocations_
                seconds := real.1.seconds - fake.1.seconds
                nseconds := real.1.nseconds - fake.1.nseconds
                info := s.generator_.Info ++ StandartBenchmark.Info }, fake.2) ∧
      RandInRange M fake.2 ∧ fake.2.clockSeq = (fun n => w.clockSeq (n + 4)) := by
  obtain ⟨real, e1, r1, h1, c1, _⟩ := StandartBenchmark.Run_ok o s true w hP h
  obtain ⟨fake, e2, r2, h2, c2, _⟩ := StandartBenchmark.Run_ok o s false real.2 hP h1
  refine ⟨real, fake, e1, e2, r1, ?_, ?_, h2, ?_⟩
  · rw [r2, c1]
  · unfold StandartBenchmark.Result
    simp only [e1, e2, r1]
  · rw [c2, c1]

/-! ## Lemmas: the selector of `EqualGenerator` -/

theorem EqualGenerator.chosen_natCast (n : Nat) :
    EqualGenerator.chosen (n : Int) =
      if n % 3 = 0 then SizeGenerator.byte
      else if n % 3 = 1 then SizeGenerator.kb else SizeGenerator.mb := by
  unfold EqualGenerator.chosen
  have e : Int.tmod (n : Int) 3 = ((n % 3 : Nat) : Int) := by
    rw [Int.tmod_eq_emod (Int.ofNat_nonneg n) (by norm_num)]
    omega
  simp only [e]
  have h3 : n % 3 = 0 ∨ n % 3 = 1 ∨ n % 3 = 2 := by omega
  rcases h3 with h | h | h <;> rw [h] <;> rfl

theorem EqualGenerator.selectionCount_succ (M : Nat) (g : SizeGenerator) :
    EqualGenerator.selectionCount (M + 1) g =
      EqualGenerator.selectionCount M g +
        (if EqualGenerator.chosen ((M + 1 : Nat) : Int) = g then 1 else 0) := by
  unfold EqualGenerator.selectionCount
  rw [List.range_succ, List.filter_append, List.length_append]
  simp only [List.filter_cons, List.filter_nil, Int.ofNat_eq_coe, decide_eq_true_eq]
  split <;> rfl

theorem EqualGenerator.selectionCount_eq (M : Nat) :
    EqualGenerator.selectionCount M SizeGenerator.byte = (M + 3) / 3 ∧
    EqualGenerator.selectionCount M SizeGenerator.kb = (M + 2) / 3 ∧
    EqualGenerator.selectionCount M SizeGenerator.mb = (M + 1) / 3 ∧
    EqualGenerator.selectionCount M SizeGenerator.equal = 0 := by
  induction M with
  | zero => decide
  | succ M ih =>
    obtain ⟨i0, i1, i2, i3⟩ := ih
    simp only [EqualGenerator.selectionCount_succ, i0, i1, i2, i3,
      EqualGenerator.chosen_natCast]
    have h3 : (M + 1) % 3 = 0 ∨ (M + 1) % 3 = 1 ∨ (M + 1) % 3 = 2 := by omega
    rcases h3 with h | h | h <;> rw [h] <;> simp <;> omega

/-! ## Lemmas: the driver -/

theorem quotients_sum_zero (reports : List Report) (h : ∀ r ∈ reports, r.nseconds = 0) :
    (reports.map (fun r => Int.tdiv r.nseconds r.alloc_count)).sum = 0 := by
  induction reports with
  | nil => rfl
  | cons r rest ih =>
    have hr : r.nseconds = 0 := h r (List.mem_cons_self _ _)
    have ht := ih (fun x hx => h x (List.mem_cons_of_mem _ hx))
    simp only [List.map_cons, List.sum_cons, hr, ht, Int.zero_tdiv, add_zero]

/-- When every clock reading has the same sub-second field, every report of
the driver's loop has `nseconds = 0` and the accumulator keeps the value it
started with. -/
theorem Driver.loop_constant_clock {M : Int} (o : EvalOrder) (n : Nat) :
    ∀ (total : Int) (w : World), RandInRange M w →
      (∀ i j, (w.clockSeq i).tv_nsec = (w.clockSeq j).tv_nsec) → inInt32 total →
      ∃ r, Driver.loop o n total w = some r ∧ r.1 = total ∧ r.2.1.length = n ∧
        ∀ rep ∈ r.2.1, rep.nseconds = 0 := by
  induction n with
  | zero =>
    intro total w _ _ _
    exact ⟨(total, [], w), rfl, rfl, rfl, by simp⟩
  | succ n ih =>
    intro total w h hc ht
    obtain ⟨real, fake, _, _, r1, r2, e, h2, c2⟩ :=
      StandartBenchmark.Result_ok o ⟨1000, 100000, SizeGenerator.equal⟩ w (by norm_num) h
    have hns : real.1.nseconds - fake.1.nseconds = 0 := by
      rw [r1, r2]
      simp only
      rw [hc 1 0, hc 3 2]
      omega
    have hc2 : ∀ i j, (fake.2.clockSeq i).tv_nsec = (fake.2.clockSeq j).tv_nsec := by
      intro i j
      rw [c2]
      exact hc _ _
    obtain ⟨rest, e3, t3, l3, z3⟩ := ih total fake.2 h2 hc2 ht
    obtain ⟨rep, hrep⟩ : ∃ rep : Report, rep =
        { alloc_count := 100000
          seconds := real.1.seconds - fake.1.seconds
          nseconds := real.1.nseconds - fake.1.nseconds
          info := SizeGenerator.equal.Info ++ StandartBenchmark.Info } := ⟨_, rfl⟩
    rw [← hrep] at e
    have hz : rep.nseconds = 0 := by rw [hrep]; exact hns
    have ha : rep.alloc_count ≠ 0 := by rw [hrep]; norm_num
    refine ⟨(rest.1, rep :: rest.2.1, rest.2.2), ?_, t3, ?_, ?_⟩
    · simp only [Driver.loop, e, Driver.accumulate, if_neg ha, hz, Int.zero_tdiv, add_zero,
        wrapInt32_of_inInt32 ht, e3]
    · simp [l3]
    · intro x hx
      rcases List.mem_cons.mp hx with hh | hh
      · rw [hh]
        exact hz
      · exact z3 x hh

/-- With such a clock `main` prints, as its last line, a tenth of whatever the
accumulator's storage held, while the quotients it summed are all zero. -/
theorem Driver.main_constant_clock {M : Int} (o : EvalOrder) (garbage : Int) (w : World)
    (h : RandInRange M w) (hc : ∀ i j, (w.clockSeq i).tv_nsec = (w.clockSeq j).tv_nsec)
    (hg : inInt32 garbage) :
    ∃ r, Driver.main o garbage w = some r ∧ r.1.length = 10 ∧
      r.2.1 = Int.tdiv garbage 10 ∧ Driver.specFinalLine r.1 = 0 := by
  obtain ⟨r, e, t, l, z⟩ := Driver.loop_constant_clock o 10 garbage w h hc hg
  refine ⟨(r.2.1, Int.tdiv r.1 10, r.2.2), ?_, l, ?_, ?_⟩
  · simp only [Driver.main, e]
  · simp only [t]
  · simp only [Driver.specFinalLine, quotients_sum_zero r.2.1 z]
    rfl

/-! ## Lemmas: the concrete inputs -/

theorem sampleWorld_inRange : RandInRange 32767 sampleWorld := by
  intro n
  simp only [sampleWorld, Int.ofNat_eq_coe]
  omega

theorem wholeSecondWorld_inRange : RandInRange 32767 wholeSecondWorld := by
  intro n
  simp only [wholeSecondWorld, Int.ofNat_eq_coe]
  omega

theorem newPool_counts (real : Bool) (n : Nat) (w : World) :
    (StandartBenchmark.newPool real n w).2.heap.acquisitions = w.heap.acquisitions ∧
    (StandartBenchmark.newPool real n w).2.heap.releases = w.heap.releases := by
  simp [StandartBenchmark.newPool, Heap.acquisitions, Heap.releases, List.countP_append,
    List.countP_replicate, HeapEvent.isAcquire, HeapEvent.isRelease]

theorem selectionProbability_eq_third_iff (M : Nat) (g : SizeGenerator) :
    EqualGenerator.selectionProbability M g = 1 / 3 ↔
      3 * EqualGenerator.selectionCount M g = M + 1 := by
  unfold EqualGenerator.selectionProbability
  have hpos : ((M : ℚ) + 1) ≠ 0 := by positivity
  rw [div_eq_div_iff hpos (by norm_num)]
  constructor
  · intro h
    have : ((3 * EqualGenerator.selectionCount M g : Nat) : ℚ) = ((M + 1 : Nat) : ℚ) := by
      push_cast
      linarith
    exact_mod_cast this
  · intro h
    have : ((3 * EqualGenerator.selectionCount M g : Nat) : ℚ) = ((M + 1 : Nat) : ℚ) := by
      rw [h]
    push_cast at this
    linarith

theorem selectionProbability_near_third (M : Nat) (g : SizeGenerator)
    (h1 : 3 * EqualGenerator.selectionCount M g ≤ M + 3)
    (h2 : M ≤ 3 * EqualGenerator.selectionCount M g + 1) :
    |EqualGenerator.selectionProbability M g - 1 / 3| < 1 / ((M : ℚ) + 1) := by
  unfold EqualGenerator.selectionProbability
  have hpos : (0 : ℚ) < (M : ℚ) + 1 := by positivity
  have q1 : (3 * (EqualGenerator.selectionCount M g : ℚ)) ≤ (M : ℚ) + 3 := by exact_mod_cast h1
  have q2 : (M : ℚ) ≤ 3 * (EqualGenerator.selectionCount M g : ℚ) + 1 := by exact_mod_cast h2
  have e : (EqualGenerator.selectionCount M g : ℚ) / ((M : ℚ) + 1) - 1 / 3 =
      (3 * (EqualGenerator.selectionCount M g : ℚ) - ((M : ℚ) + 1)) / 3 / ((M : ℚ) + 1) := by
    field_simp
    ring
  rw [e, abs_div, abs_of_pos hpos, div_lt_div_iff_of_pos_right hpos, abs_lt]
  constructor <;> linarith

/-! ## The claims -/

/-- C1: for every pool size of at least one, every operation count and each of
the size distributions, `Result` returns, and the report it returns has
`alloc_count` equal to the operation count, for every sequence of values of
the random source (each in `[0, RAND_MAX]`) and every sequence of clock
readings. -/
theorem StandartBenchmark.Result_alloc_count (RAND_MAX : Int) (o : EvalOrder)
    (s : StandartBenchmark) (w : World) (hP : 1 ≤ s.num_of_buffers_)
    (hR : RandInRange RAND_MAX w) :
    ∃ r, StandartBenchmark.Result o s w = some r ∧
      r.1.alloc_count = s.num_of_allocations_ := by
  obtain ⟨real, fake, _, _, _, _, e, _, _⟩ := StandartBenchmark.Result_ok o s w hP hR
  exact ⟨_, e, rfl⟩

/-- Witness of C1: three buffers, seven operations, the `Equal` distribution. -/
theorem StandartBenchmark.Result_alloc_count_witness :
    (1 : Int) ≤ 3 ∧ RandInRange 32767 sampleWorld ∧
    ∃ r, StandartBenchmark.Result sampleOrder ⟨3, 7, SizeGenerator.equal⟩ sampleWorld = some r ∧
      r.1.alloc_count = 7 :=
  ⟨by decide, sampleWorld_inRange,
    StandartBenchmark.Result_alloc_count 32767 sampleOrder ⟨3, 7, SizeGenerator.equal⟩
      sampleWorld (by decide) sampleWorld_inRange⟩

/-- C3 as stated fails: handed the one size -1, a free `RealBuffer` does not
end allocated: `new char[size]` throws and no call returns. -/
theorem RealBuffer.Reallocs_negative_size :
    RealBuffer.Reallocs [-1] ⟨none, false⟩ sampleWorld = none ∧
    ¬ ∃ r, RealBuffer.Reallocs [-1] ⟨none, false⟩ sampleWorld = some r ∧
      r.1.allocated_ = true ∧ r.2.heap.acquisitions = sampleWorld.heap.acquisitions + 1 := by
  have e : RealBuffer.Reallocs [-1] ⟨none, false⟩ sampleWorld = none := rfl
  refine ⟨e, ?_⟩
  rintro ⟨r, hr, _⟩
  rw [e] at hr
  exact Option.noConfusion hr

/-- C3, amended: a `RealBuffer` constructed as in the pool is free; for every
sequence of sizes in which every size handed to an acquiring call (the first,
third, ... call) is non-negative, all the `Realloc` calls return, the buffer
ends allocated exactly when their number `n` is odd, storage has been acquired
`(n + 1) / 2` times and released `n / 2` times, and the heap log grew by
exactly the alternating trace: each odd-numbered call acquires a block of the
requested size and each even-numbered call releases the block the call before
it acquired. -/
theorem RealBuffer.Reallocs_alternate (sizes : List Int) (w : World)
    (hs : ∀ i size, sizes[2 * i]? = some size → 0 ≤ size) :
    TestBuffer.fresh true = TestBuffer.real ⟨none, false⟩ ∧
    ∃ r, RealBuffer.Reallocs sizes ⟨none, false⟩ w = some r ∧
      (r.1.allocated_ = true ↔ sizes.length % 2 = 1) ∧
      r.2.heap.acquisitions = w.heap.acquisitions + (sizes.length + 1) / 2 ∧
      r.2.heap.releases = w.heap.releases + sizes.length / 2 ∧
      r.2.heap.events =
        (RealBuffer.specTrace w.heap.acquisitions sizes).reverse ++ w.heap.events := by
  obtain ⟨r, e, h1, h2⟩ := RealBuffer.Reallocs_free sizes ⟨none, false⟩ w rfl hs
  obtain ⟨c1, c2⟩ := RealBuffer.specTrace_counts w.heap.acquisitions sizes
  refine ⟨rfl, r, e, h2, ?_, ?_, h1⟩
  · show List.countP _ r.2.heap.events = List.countP _ w.heap.events + _
    rw [h1, List.countP_append, List.countP_reverse, c1, Nat.add_comm]
  · show List.countP _ r.2.heap.events = List.countP _ w.heap.events + _
    rw [h1, List.countP_append, List.countP_reverse, c2, Nat.add_comm]

/-- Witness of C3 amended: three calls with sizes 10, -5 and 30; the negative
size goes to the releasing call, which ignores it. -/
theorem RealBuffer.Reallocs_alternate_witness :
    (∀ i size, ([10, -5, 30] : List Int)[2 * i]? = some size → 0 ≤ size) ∧
    TestBuffer.fresh true = TestBuffer.real ⟨none, false⟩ ∧
    ∃ r, RealBuffer.Reallocs [10, -5, 30] ⟨none, false⟩ sampleWorld = some r ∧
      (r.1.allocated_ = true ↔ ([10, -5, 30] : List Int).length % 2 = 1) ∧
      r.2.heap.acquisitions =
        sampleWorld.heap.acquisitions + (([10, -5, 30] : List Int).length + 1) / 2 ∧
      r.2.heap.releases = sampleWorld.heap.releases + ([10, -5, 30] : List Int).length / 2 ∧
      r.2.heap.events =
        (RealBuffer.specTrace sampleWorld.heap.acquisitions [10, -5, 30]).reverse ++
          sampleWorld.heap.events :=
  have hs : ∀ i size, ([10, -5, 30] : List Int)[2 * i]? = some size → 0 ≤ size := by
    intro i size h
    match i, h with
    | 0, h => simp at h; omega
    | 1, h => simp at h; omega
    | n + 2, h =>
      have e : ([10, -5, 30] : List Int)[2 * (n + 2)]? = none :=
        List.getElem?_eq_none (by simp only [List.length_cons, List.length_nil]; omega)
      rw [e] at h
      exact Option.noConfusion h
  ⟨hs, RealBuffer.Reallocs_alternate [10, -5, 30] sampleWorld hs⟩

/-- C4, the code at a failing input: with one buffer and one operation the
real pass acquires one block and has released none when `Run` returns. -/
theorem StandartBenchmark.Run_real_leaks :
    (StandartBenchmark.Run sampleOrder ⟨1, 1, SizeGenerator.byte⟩ true sampleWorld).map
      (fun r => (r.2.heap.acquisitions, r.2.heap.releases)) = some (1, 0) := by
  decide

/-- C5, the code at a failing input: the accumulator's storage holds 10 and
every clock reading falls on a whole second; all ten quotients are zero, so
the specified last line is 0, and `main` prints 1. -/
theorem Driver.main_uninitialised_total :
    ∃ r, Driver.main sampleOrder 10 wholeSecondWorld = some r ∧ r.1.length = 10 ∧
      r.2.1 = 1 ∧ Driver.specFinalLine r.1 = 0 := by
  obtain ⟨r, e, l, t, z⟩ := Driver.main_constant_clock sampleOrder 10 wholeSecondWorld
    wholeSecondWorld_inRange (fun _ _ => rfl) (by decide)
  exact ⟨r, e, l, by rw [t]; decide, z⟩

/-- C6: any sequence of `Realloc` calls on a `FakeBuffer` leaves the world,
the heap included, as it was and only flips `allocated_` once per call; and
for a pool of at least one buffer the fake pass returns with the heap log it
had once the pool was built, so with as many storage acquisitions and
releases as before the pass. -/
theorem FakeBuffer.no_storage (RAND_MAX : Int) (o : EvalOrder) (s : StandartBenchmark)
    (w : World) (sizes : List Int) (b : FakeBuffer) (hP : 1 ≤ s.num_of_buffers_)
    (hR : RandInRange RAND_MAX w) :
    ((FakeBuffer.Reallocs sizes b w).2 = w ∧
      (FakeBuffer.Reallocs sizes b w).1.buffer_ = b.buffer_ ∧
      (FakeBuffer.Reallocs sizes b w).1.allocated_ =
        if sizes.length % 2 = 1 then !b.allocated_ else b.allocated_) ∧
    ∃ r, StandartBenchmark.Run o s false w = some r ∧
      r.2.heap = (StandartBenchmark.newPool false s.num_of_buffers_.toNat w).2.heap ∧
      r.2.heap.events = List.replicate s.num_of_buffers_.toNat HeapEvent.object ++ w.heap.events ∧
      r.2.heap.acquisitions = w.heap.acquisitions ∧
      r.2.heap.releases = w.heap.releases := by
  refine ⟨FakeBuffer.Reallocs_eq sizes b w, ?_⟩
  obtain ⟨r, e, _, _, _, hf⟩ := StandartBenchmark.Run_ok o s false w hP hR
  obtain ⟨c1, c2⟩ := newPool_counts false s.num_of_buffers_.toNat w
  refine ⟨r, e, hf rfl, ?_, ?_, ?_⟩
  · rw [hf rfl]
    rfl
  · rw [hf rfl]
    exact c1
  · rw [hf rfl]
    exact c2

/-- Witness of C6: three `Realloc` calls on a fresh `FakeBuffer`, and a fake
pass with three buffers and seven operations. -/
theorem FakeBuffer.no_storage_witness :
    (1 : Int) ≤ 3 ∧ RandInRange 32767 sampleWorld ∧
    ((FakeBuffer.Reallocs [10, 20, 30] ⟨none, false⟩ sampleWorld).2 = sampleWorld ∧
      (FakeBuffer.Reallocs [10, 20, 30] ⟨none, false⟩ sampleWorld).1.buffer_ = none ∧
      (FakeBuffer.Reallocs [10, 20, 30] ⟨none, false⟩ sampleWorld).1.allocated_ = true) ∧
    ∃ r, StandartBenchmark.Run sampleOrder ⟨3, 7, SizeGenerator.equal⟩ false sampleWorld =
        some r ∧
      r.2.heap =
        (StandartBenchmark.newPool false 3 sampleWorld).2.heap ∧
      r.2.heap.events = List.replicate 3 HeapEvent.object ++ sampleWorld.heap.events ∧
      r.2.heap.acquisitions = sampleWorld.heap.acquisitions ∧
      r.2.heap.releases = sampleWorld.heap.releases :=
  ⟨by decide, sampleWorld_inRange,
    FakeBuffer.no_storage 32767 sampleOrder ⟨3, 7, SizeGenerator.equal⟩ sampleWorld
      [10, 20, 30] ⟨none, false⟩ (by decide) sampleWorld_inRange⟩

/-- C7: when `rand()` returns a value `r` with `0 ≤ r ≤ RAND_MAX`,
`ByteGenerator::size` returns `r mod 1024`, which is at least 0 and below
1024. -/
theorem ByteGenerator.size_range (RAND_MAX : Int) (w : World)
    (h : 0 ≤ (rand w).1 ∧ (rand w).1 ≤ RAND_MAX) :
    (ByteGenerator.size w).1 = (rand w).1 % 1024 ∧
    0 ≤ (ByteGenerator.size w).1 ∧ (ByteGenerator.size w).1 < 1024 :=
  tmod_1024_bounds h.1

/-- Witness of C7: the random source returns 5000, the size is 904. -/
theorem ByteGenerator.size_range_witness :
    (0 ≤ (rand sampleWorld).1 ∧ (rand sampleWorld).1 ≤ 32767) ∧
    (ByteGenerator.size sampleWorld).1 = (rand sampleWorld).1 % 1024 ∧
    0 ≤ (ByteGenerator.size sampleWorld).1 ∧ (ByteGenerator.size sampleWorld).1 < 1024 :=
  ⟨by decide, ByteGenerator.size_range 32767 sampleWorld (by decide)⟩

/-- C8: whatever the two readings, after `Start` and `Finish` the timer's
`Seconds` is the difference of the `tv_sec` fields and `NSeconds` the
difference of the `tv_nsec` fields, with no borrow, and
`Seconds * 10^9 + NSeconds` is the elapsed time in nanoseconds; and there are
valid readings, the second strictly later than the first, for which `NSeconds`
is negative. -/
theorem Timer.elapsed_fields :
    (∀ (t : Timer) (w : World),
      ((t.Start w).1.Finish (t.Start w).2).1.Seconds =
        (w.clockSeq 1).tv_sec - (w.clockSeq 0).tv_sec ∧
      ((t.Start w).1.Finish (t.Start w).2).1.NSeconds =
        (w.clockSeq 1).tv_nsec - (w.clockSeq 0).tv_nsec ∧
      ((t.Start w).1.Finish (t.Start w).2).1.Seconds * 1000000000 +
        ((t.Start w).1.Finish (t.Start w).2).1.NSeconds =
        (w.clockSeq 1).toNanoseconds - (w.clockSeq 0).toNanoseconds) ∧
    (∃ (t : Timer) (w : World),
      (w.clockSeq 0).valid ∧ (w.clockSeq 1).valid ∧
      (w.clockSeq 0).toNanoseconds < (w.clockSeq 1).toNanoseconds ∧
      ((t.Start w).1.Finish (t.Start w).2).1.NSeconds < 0) := by
  constructor
  · intro t w
    refine ⟨rfl, rfl, ?_⟩
    simp only [Timer.Start, Timer.Finish, Timer.Seconds, Timer.NSeconds, clock_gettime,
      timespec.toNanoseconds]
    ring
  · refine ⟨⟨⟨0, 0⟩, ⟨0, 0⟩⟩, sampleWorld, ?_, ?_, ?_, ?_⟩
    · unfold timespec.valid; decide
    · unfold timespec.valid; decide
    · decide
    · decide

/-- C9: with every value of the random source in `[0, RAND_MAX]`, and for
either order in which the operands of each `+` are evaluated:
`KbGenerator::size` is one byte draw plus another byte draw times 1024, lies
in `[0, 1048576)`, and neither the product nor the sum leaves the range of
`int`; `MbGenerator::size` is 1048576 times one byte draw plus one kilobyte
draw, lies in `[0, 1073741824)`, and neither the constant, the product nor the
sum leaves the range of `int`. -/
theorem SizeGenerator.kb_mb_size_range (RAND_MAX : Int) (o : EvalOrder) (w : World)
    (hR : RandInRange RAND_MAX w) :
    ((KbGenerator.size o w).1 =
        (ByteGenerator.size (w.skip (if o.kbLeftFirst then 0 else 1))).1 +
        (ByteGenerator.size (w.skip (if o.kbLeftFirst then 1 else 0))).1 * 1024 ∧
      inInt32 ((ByteGenerator.size (w.skip (if o.kbLeftFirst then 1 else 0))).1 * 1024) ∧
      inInt32 ((ByteGenerator.size (w.skip (if o.kbLeftFirst then 0 else 1))).1 +
        (ByteGenerator.size (w.skip (if o.kbLeftFirst then 1 else 0))).1 * 1024) ∧
      0 ≤ (KbGenerator.size o w).1 ∧ (KbGenerator.size o w).1 < 1048576) ∧
    ((MbGenerator.size o w).1 =
        1048576 * (ByteGenerator.size (w.skip (if o.mbLeftFirst then 0 else 2))).1 +
        (KbGenerator.size o (w.skip (if o.mbLeftFirst then 1 else 0))).1 ∧
      inInt32 (1024 * 1024) ∧
      inInt32 (1024 * 1024 * (ByteGenerator.size (w.skip (if o.mbLeftFirst then 0 else 2))).1) ∧
      inInt32 (1024 * 1024 * (ByteGenerator.size (w.skip (if o.mbLeftFirst then 0 else 2))).1 +
        (KbGenerator.size o (w.skip (if o.mbLeftFirst then 1 else 0))).1) ∧
      0 ≤ (MbGenerator.size o w).1 ∧ (MbGenerator.size o w).1 < 1073741824) := by
  have bl := ByteGenerator.byte_size_bounds (hR.skip (if o.kbLeftFirst then 0 else 1))
  have br := ByteGenerator.byte_size_bounds (hR.skip (if o.kbLeftFirst then 1 else 0))
  have bb := ByteGenerator.byte_size_bounds (hR.skip (if o.mbLeftFirst then 0 else 2))
  have bk := KbGenerator.kb_size_bounds o (hR.skip (if o.mbLeftFirst then 1 else 0))
  obtain ⟨_, k1, k2⟩ := kb_arith bl br
  obtain ⟨_, m0, m1, m2⟩ := mb_arith bb bk
  exact ⟨⟨KbGenerator.kb_size_fst o hR, k1, k2, KbGenerator.kb_size_bounds o hR⟩,
    ⟨MbGenerator.mb_size_fst o hR, m0, m1, m2, MbGenerator.mb_size_bounds o hR⟩⟩

/-- Witness of C9: the sample world, left operand first in `KbGenerator::size`
and right operand first in `MbGenerator::size`. -/
theorem SizeGenerator.kb_mb_size_range_witness :
    RandInRange 32767 sampleWorld ∧
    ((KbGenerator.size sampleOrder sampleWorld).1 =
        (ByteGenerator.size (sampleWorld.skip (if sampleOrder.kbLeftFirst then 0 else 1))).1 +
        (ByteGenerator.size (sampleWorld.skip (if sampleOrder.kbLeftFirst then 1 else 0))).1 *
          1024 ∧
      inInt32 ((ByteGenerator.size
        (sampleWorld.skip (if sampleOrder.kbLeftFirst then 1 else 0))).1 * 1024) ∧
      inInt32 ((ByteGenerator.size
          (sampleWorld.skip (if sampleOrder.kbLeftFirst then 0 else 1))).1 +
        (ByteGenerator.size (sampleWorld.skip (if sampleOrder.kbLeftFirst then 1 else 0))).1 *
          1024) ∧
      0 ≤ (KbGenerator.size sampleOrder sampleWorld).1 ∧
      (KbGenerator.size sampleOrder sampleWorld).1 < 1048576) ∧
    ((MbGenerator.size sampleOrder sampleWorld).1 =
        1048576 *
          (ByteGenerator.size (sampleWorld.skip (if sampleOrder.mbLeftFirst then 0 else 2))).1 +
        (KbGenerator.size sampleOrder
          (sampleWorld.skip (if sampleOrder.mbLeftFirst then 1 else 0))).1 ∧
      inInt32 (1024 * 1024) ∧
      inInt32 (1024 * 1024 *
        (ByteGenerator.size (sampleWorld.skip (if sampleOrder.mbLeftFirst then 0 else 2))).1) ∧
      inInt32 (1024 * 1024 *
          (ByteGenerator.size (sampleWorld.skip (if sampleOrder.mbLeftFirst then 0 else 2))).1 +
        (KbGenerator.size sampleOrder
          (sampleWorld.skip (if sampleOrder.mbLeftFirst then 1 else 0))).1) ∧
      0 ≤ (MbGenerator.size sampleOrder sampleWorld).1 ∧
      (MbGenerator.size sampleOrder sampleWorld).1 < 1073741824) :=
  ⟨sampleWorld_inRange,
    SizeGenerator.kb_mb_size_range 32767 sampleOrder sampleWorld sampleWorld_inRange⟩

/-- C10 as stated fails: with `RAND_MAX = 2147483647` and a selector draw
uniform over `[0, RAND_MAX]`, the byte variant is not selected with
probability 1/3. -/
theorem EqualGenerator.selection_not_exact :
    EqualGenerator.selectionProbability 2147483647 SizeGenerator.byte ≠ 1 / 3 := by
  intro h
  rw [selectionProbability_eq_third_iff, (EqualGenerator.selectionCount_eq 2147483647).1] at h
  norm_num at h

/-- C10, amended: `EqualGenerator::size` draws a selector `x = rand() % 3` and
returns a byte draw when `x = 0`, a kilobyte draw when `x = 1` and a megabyte
draw when `x = 2`; when the selector draw is uniform over `[0, RAND_MAX]` the
three variants are selected with probabilities `((RAND_MAX + 3) / 3)`,
`((RAND_MAX + 2) / 3)` and `((RAND_MAX + 1) / 3)` over `RAND_MAX + 1`
(integer quotients), each less than `1 / (RAND_MAX + 1)` away from 1/3, and
all three are exactly 1/3 if and only if 3 divides `RAND_MAX + 1`. -/
theorem EqualGenerator.size_selection (RAND_MAX : Nat) (o : EvalOrder) (w : World)
    (hR : RandInRange (RAND_MAX : Int) w) :
    ((Int.tmod (rand w).1 3 = 0 ∧ EqualGenerator.chosen (rand w).1 = SizeGenerator.byte ∧
        EqualGenerator.size o w = ByteGenerator.size (rand w).2) ∨
      (Int.tmod (rand w).1 3 = 1 ∧ EqualGenerator.chosen (rand w).1 = SizeGenerator.kb ∧
        EqualGenerator.size o w = KbGenerator.size o (rand w).2) ∨
      (Int.tmod (rand w).1 3 = 2 ∧ EqualGenerator.chosen (rand w).1 = SizeGenerator.mb ∧
        EqualGenerator.size o w = MbGenerator.size o (rand w).2)) ∧
    EqualGenerator.selectionProbability RAND_MAX SizeGenerator.byte =
      (((RAND_MAX + 3) / 3 : Nat) : ℚ) / ((RAND_MAX : ℚ) + 1) ∧
    EqualGenerator.selectionProbability RAND_MAX SizeGenerator.kb =
      (((RAND_MAX + 2) / 3 : Nat) : ℚ) / ((RAND_MAX : ℚ) + 1) ∧
    EqualGenerator.selectionProbability RAND_MAX SizeGenerator.mb =
      (((RAND_MAX + 1) / 3 : Nat) : ℚ) / ((RAND_MAX : ℚ) + 1) ∧
    |EqualGenerator.selectionProbability RAND_MAX SizeGenerator.byte - 1 / 3| <
      1 / ((RAND_MAX : ℚ) + 1) ∧
    |EqualGenerator.selectionProbability RAND_MAX SizeGenerator.kb - 1 / 3| <
      1 / ((RAND_MAX : ℚ) + 1) ∧
    |EqualGenerator.selectionProbability RAND_MAX SizeGenerator.mb - 1 / 3| <
      1 / ((RAND_MAX : ℚ) + 1) ∧
    ((EqualGenerator.selectionProbability RAND_MAX SizeGenerator.byte = 1 / 3 ∧
        EqualGenerator.selectionProbability RAND_MAX SizeGenerator.kb = 1 / 3 ∧
        EqualGenerator.selectionProbability RAND_MAX SizeGenerator.mb = 1 / 3) ↔
      3 ∣ RAND_MAX + 1) := by
  obtain ⟨c0, c1, c2, _⟩ := EqualGenerator.selectionCount_eq RAND_MAX
  refine ⟨?_, ?_, ?_, ?_, ?_, ?_, ?_, ?_⟩
  · have h0 : 0 ≤ (rand w).1 := (hR 0).1
    have e : Int.tmod (rand w).1 3 = (rand w).1 % 3 := Int.tmod_eq_emod h0 (by norm_num)
    have h3 : (rand w).1 % 3 = 0 ∨ (rand w).1 % 3 = 1 ∨ (rand w).1 % 3 = 2 := by omega
    unfold EqualGenerator.size EqualGenerator.chosen
    rw [e]
    rcases h3 with h | h | h <;> simp [h]
  · unfold EqualGenerator.selectionProbability; rw [c0]
  · unfold EqualGenerator.selectionProbability; rw [c1]
  · unfold EqualGenerator.selectionProbability; rw [c2]
  · exact selectionProbability_near_third _ _ (by rw [c0]; omega) (by rw [c0]; omega)
  · exact selectionProbability_near_third _ _ (by rw [c1]; omega) (by rw [c1]; omega)
  · exact selectionProbability_near_third _ _ (by rw [c2]; omega) (by rw [c2]; omega)
  · simp only [selectionProbability_eq_third_iff, c0, c1, c2]
    omega

/-- Witness of C10 amended: the sample world with `RAND_MAX = 32767`. -/
theorem EqualGenerator.size_selection_witness :
    RandInRange ((32767 : Nat) : Int) sampleWorld ∧
    ((Int.tmod (rand sampleWorld).1 3 = 2 ∧
      EqualGenerator.chosen (rand sampleWorld).1 = SizeGenerator.mb ∧
      EqualGenerator.size sampleOrder sampleWorld =
        MbGenerator.size sampleOrder (rand sampleWorld).2) ∧
    EqualGenerator.selectionProbability 32767 SizeGenerator.byte = 10923 / 32768 ∧
    |EqualGenerator.selectionProbability 32767 SizeGenerator.mb - 1 / 3| < 1 / 32768) := by
  have h := EqualGenerator.size_selection 32767 sampleOrder sampleWorld sampleWorld_inRange
  obtain ⟨h1, h2, _, _, _, _, h7, _⟩ := h
  refine ⟨sampleWorld_inRange, ?_, ?_, ?_⟩
  · rcases h1 with ⟨a, _⟩ | ⟨a, _⟩ | h
    · exact absurd a (by decide)
    · exact absurd a (by decide)
    · exact h
  · rw [h2]
    norm_num
  · have e : ((32767 : Nat) : ℚ) + 1 = 32768 := by norm_num
    rw [e] at h7
    exact h7
